import Mathlib

/-!
Verification development for the `github_developer_profiler` repository.

The repository's core is the audit aggregation pipeline in
`internal/services/github_service.go`: the file classifier
(`isCodeFile` / `detectLanguage`), the heuristic scorers
(`hasTestIndicators` / `assessCodeQuality` / `assessComplexity`),
the seeded file sampler inside `GetRepositoryContents`, and the
orchestrator `PerformFullAudit`.

This file gives a shallow embedding of those functions and proves
properties of them.  Remote GitHub API calls are modelled by a
`DataSource` record of response oracles; everything downstream of the
oracle responses is translated from the Go source.  Go byte strings are
modelled as `String` / `List Char` (the repository only exercises ASCII
behaviour), Go `time.Time` values as `Int` instants compared with `<`
(`Time.After`), Go `int` as `Int` or `Nat` as appropriate, and Go
`float64` ratio comparisons as exact rational comparisons.
-/

namespace DevProfiler

/-! ### Character and string helpers

Structural `List Char` versions of the `strings` library calls used by
the Go source (`ToLower`, `TrimSpace`, `Split`, `Contains`, `Count`,
`HasPrefix`), so that all definitions compute by kernel reduction. -/

/-- ASCII model of `strings.ToLower` applied to one character. -/
def toLowerChar (c : Char) : Char :=
  if 'A' ≤ c ∧ c ≤ 'Z' then Char.ofNat (c.toNat + 32) else c

/-- ASCII model of `unicode.IsSpace` (the characters trimmed by
`strings.TrimSpace`). -/
def isSpaceChar (c : Char) : Bool :=
  c = ' ' || c = '\t' || c = '\n' || c = '\r' ||
    c = Char.ofNat 11 || c = Char.ofNat 12

/-- Model of `strings.TrimSpace` on a character list. -/
def trimChars (cs : List Char) : List Char :=
  ((cs.dropWhile isSpaceChar).reverse.dropWhile isSpaceChar).reverse

/-- Model of `strings.Split(content, "\n")` on a character list: splitting on a
single separator character.  Always returns at least one (possibly
empty) part — in particular `splitLines [] = [[]]`, mirroring
`strings.Split("", "\n") == [""]`. -/
def splitLines : List Char → List (List Char)
  | [] => [[]]
  | c :: cs =>
    match splitLines cs with
    | [] => [[]]
    | l :: ls => if c = '\n' then [] :: l :: ls else (c :: l) :: ls

/-- Model of `strings.Contains(s, pat)` for a nonempty pattern: does `pat` occur
as a contiguous substring of `s`? -/
def containsFrom (pat : List Char) : List Char → Bool
  | [] => pat.isEmpty
  | c :: cs => pat.isPrefixOf (c :: cs) || containsFrom pat cs

/-- Scanner for `strings.Count`: `skip` counts positions still covered
by the previous (non-overlapping) match. -/
def countOccAux (pat : List Char) : List Char → Nat → Nat
  | [], _ => 0
  | c :: cs, skip =>
    match skip with
    | Nat.succ k => countOccAux pat cs k
    | 0 =>
      if pat.isPrefixOf (c :: cs) then 1 + countOccAux pat cs (pat.length - 1)
      else countOccAux pat cs 0

/-- Model of `strings.Count(s, pat)`: number of non-overlapping occurrences of a
nonempty pattern. -/
def countOcc (pat s : List Char) : Nat := countOccAux pat s 0

/-- The characters after the last occurrence of `sep` (the whole list
when `sep` does not occur): the last element of
`strings.Split(path, sep)`. -/
def afterLastSep (sep : Char) : List Char → List Char
  | [] => []
  | c :: cs =>
    if sep ∈ cs then afterLastSep sep cs
    else if c = sep then cs else c :: cs

/-- Scanner for `filepath.Ext`, walking the reversed path: stop with
`none` at a path separator or at the end, and at the first dot return
the scanned prefix (the reversed extension, dot included). -/
def extScan : List Char → Option (List Char)
  | [] => none
  | c :: cs =>
    if c = '/' then none
    else if c = '.' then some [c]
    else (extScan cs).map (fun e => c :: e)

/-- Model of `filepath.Ext(path)`: the suffix of the last path element starting
at its final dot, or `""` when the last element has no dot. -/
def filepathExt (path : String) : String :=
  match extScan path.toList.reverse with
  | none => ""
  | some e => String.mk e.reverse

/-! ### File classifier (`isCodeFile`, `detectLanguage`) -/

/-- The 20 extensions of the `codeExtensions` map in `isCodeFile`. -/
def codeExtensionsList : List String :=
  [".go", ".py", ".js", ".ts",
   ".java", ".cpp", ".c", ".cs",
   ".rb", ".php", ".rs", ".kt",
   ".swift", ".scala", ".r", ".m",
   ".h", ".hpp", ".cc", ".cxx"]

/-- The extension computed by `isCodeFile`:
`"." + strings.ToLower(parts[len(parts)-1])` where
`parts = strings.Split(path, ".")`. -/
def splitExtLower (path : String) : String :=
  String.mk ('.' :: (afterLastSep '.' path.toList).map toLowerChar)

/-- Embedding of `isCodeFile` (github_service.go:223-240).  `len(parts) < 2` is
equivalent to the path containing no dot. -/
def isCodeFile (path : String) : Bool :=
  if '.' ∈ path.toList then codeExtensionsList.contains (splitExtLower path)
  else false

/-- The 18-entry `languages` map of `detectLanguage`. -/
def languageTable : List (String × String) :=
  [(".go", "Go"),
   (".py", "Python"),
   (".js", "JavaScript"),
   (".ts", "TypeScript"),
   (".java", "Java"),
   (".cpp", "C++"),
   (".c", "C"),
   (".cs", "C#"),
   (".rb", "Ruby"),
   (".php", "PHP"),
   (".rs", "Rust"),
   (".kt", "Kotlin"),
   (".swift", "Swift"),
   (".scala", "Scala"),
   (".r", "R"),
   (".m", "Objective-C"),
   (".h", "C/C++ Header"),
   (".hpp", "C++ Header")]

/-- Lookup in the `languages` map, defaulting to `"Unknown"`. -/
def lookupLanguage (ext : String) : String :=
  match languageTable.find? (fun kv => kv.fst == ext) with
  | some kv => kv.snd
  | none => "Unknown"

/-- Embedding of `detectLanguage` (github_service.go:277-304):
`ext := strings.ToLower(filepath.Ext(path))`, then map lookup. -/
def detectLanguage (path : String) : String :=
  lookupLanguage (String.mk ((filepathExt path).toList.map toLowerChar))

/-! ### Heuristic scorers -/

/-- The fixed keyword list of `hasTestIndicators`. -/
def testIndicators : List String :=
  ["test", "Test", "TEST",
   "assert", "Assert",
   "expect", "Expect",
   "should", "Should",
   "describe", "it(",
   "@Test", "unittest",
   "testing.T", "t.Run"]

/-- Embedding of `hasTestIndicators` (github_service.go:307-325): case-insensitive
substring search, first match wins. -/
def hasTestIndicators (content : String) : Bool :=
  let contentLower := content.toList.map toLowerChar
  testIndicators.any (fun ind => containsFrom (ind.toList.map toLowerChar) contentLower)

/-- Does a trimmed line start with `//`, `#` or `/*`? -/
def isCommentStart (l : List Char) : Bool :=
  ([ '/', '/' ] : List Char).isPrefixOf l ||
  ([ '#' ] : List Char).isPrefixOf l ||
  ([ '/', '*' ] : List Char).isPrefixOf l

/-- The counting loop of `assessCodeQuality`: (commentLines, emptyLines,
longLines).  `emptyLines` is counted but never read afterwards, as in
the source. -/
def qualityCounts (lines : List (List Char)) : Nat × Nat × Nat :=
  lines.foldl
    (fun acc line =>
      let trimmed := trimChars line
      let acc1 :=
        if trimmed.isEmpty then (acc.1, acc.2.1 + 1, acc.2.2)
        else if isCommentStart trimmed then (acc.1 + 1, acc.2.1, acc.2.2)
        else acc
      if 120 < line.length then (acc1.1, acc1.2.1, acc1.2.2 + 1) else acc1)
    (0, 0, 0)

/-- Embedding of `assessCodeQuality` (github_service.go:328-362).  The Go `float64`
comparisons `commentRatio > 0.2`, `longLineRatio < 0.1`,
`commentRatio > 0.1`, `longLineRatio < 0.2` (with
`ratio = count/totalLines`, `totalLines > 0`) are modelled by the
equivalent exact cross-multiplied comparisons. -/
def assessCodeQuality (content : String) : String :=
  let lines := splitLines content.toList
  let counts := qualityCounts lines
  let commentLines := counts.1
  let longLines := counts.2.2
  let totalLines := lines.length
  if totalLines = 0 then "Unknown"
  else
    if 5 * commentLines > totalLines ∧ 10 * longLines < totalLines then "Good"
    else if 10 * commentLines > totalLines ∧ 5 * longLines < totalLines then "Fair"
    else "Needs Improvement"

/-- The control-flow keyword list of `assessComplexity`. -/
def complexityKeywords : List String :=
  ["if", "else", "for", "while", "switch", "case",
   "try", "catch", "finally", "throw"]

/-- Embedding of `assessComplexity` (github_service.go:365-392).  The `float64`
comparisons `complexityRatio > 0.1` and `complexityRatio > 0.05` (with
`complexityRatio = complexityCount/lines`, `lines > 0`) are modelled by
the equivalent exact cross-multiplied comparisons. -/
def assessComplexity (content : String) : String :=
  let contentLower := content.toList.map toLowerChar
  let complexityCount :=
    (complexityKeywords.map (fun k => countOcc k.toList contentLower)).sum
  let lines := (splitLines content.toList).length
  if lines = 0 then "Unknown"
  else
    if 10 * complexityCount > lines then "High"
    else if 20 * complexityCount > lines then "Medium"
    else "Low"

/-! ### Data model (`internal/dto`)

`time.Time` instants are modelled as `Int`, with `a.After(b)` as
`b < a`.  Go zero values fill the fields a struct literal omits. -/

/-- Model of `dto.GitHubConfig`. -/
structure GitHubConfig where
  token : String
  sampledRepoCount : Nat
  commitsPerRepo : Nat
  sampleFileCount : Nat
  analysisYears : Nat
  includePrivateRepo : Bool
  randomSeed : Nat
  saveDebugJSON : Bool
deriving Repr, DecidableEq

/-- Model of `dto.UserInfo`. -/
structure UserInfo where
  username : String
  name : String
  company : String
  location : String
  email : String
  createdAt : Int
  publicRepos : Int
  publicGists : Int
  followers : Int
  following : Int
  subscriptionPlan : String
  updatedAt : Int
deriving Repr, DecidableEq

/-- Model of `dto.Repository`. -/
structure Repository where
  name : String
  description : String
  createdAt : Int
  updatedAt : Int
  stars : Int
  fork : Bool
  forkSource : String
  userCommits : Int
  languagesUsed : List String
  fileCount : Nat
  commitCount : Nat
  includeAnalysis : Bool
  isSignificant : Bool
deriving Repr, DecidableEq

/-- Model of `dto.CommitDetail`. -/
structure CommitDetail where
  repo : String
  sha : String
  message : String
  date : Int
  author : String
  filesChanged : List String
deriving Repr, DecidableEq

/-- Model of `dto.FileAnalysis`. -/
structure FileAnalysis where
  repo : String
  path : String
  language : String
  size : Nat
  lines : Nat
  hasTests : Bool
  content : String
deriving Repr, DecidableEq

/-- Model of `dto.RepoStatistics`. -/
structure RepoStatistics where
  totalRepos : Nat
  originalRepos : Nat
  forkedRepos : Nat
  significantForks : Nat
  totalStars : Int
  analysisRepos : Nat
deriving Repr, DecidableEq

/-- Model of `dto.RepoStats`. -/
structure RepoStats where
  statistics : RepoStatistics
  originalRepos : List Repository
  forkedRepos : List Repository
deriving Repr, DecidableEq

/-- Model of `dto.AnalysisSummary`. -/
structure AnalysisSummary where
  reposAnalyzedForCode : List String
  reposWithErrors : List String
  reposWithoutUserCommits : List String
  totalReposAttempted : Nat
  successfulAnalysisCount : Nat
deriving Repr, DecidableEq

/-- Model of `dto.AuditResult`. -/
structure AuditResult where
  userInfo : UserInfo
  repoStats : RepoStats
  fileAnalysis : List FileAnalysis
  commitDetails : List CommitDetail
  auditParameters : GitHubConfig
  analysisSummary : AnalysisSummary
deriving Repr, DecidableEq

/-! ### Remote data source

The GitHub REST client is replaced by a record of response oracles, one
per remote call the pipeline makes; everything applied to the responses
is translated from the Go source.  `getUser` and `getCommits` abstract
`GetUser` / `GetRepositoryCommits` at their return type (their internal
field-by-field conversions contain no logic the verified claims
depend on); `listRepos` returns the raw repository payloads so that the
conversion in `ListRepositories` (github_service.go:101-124) — the only
place a `dto.Repository` is created — stays part of the model. -/

/-- The fields of a raw `github.Repository` payload that
`ListRepositories` reads. -/
structure GhRepo where
  name : String
  description : String
  stars : Int
  fork : Bool
  createdAt : Int
  updatedAt : Int
  parentFullName : Option String
deriving Repr, DecidableEq

/-- One entry of the git tree returned by `Git.GetTree`. -/
structure TreeEntry where
  path : String
  entryType : String
deriving Repr, DecidableEq

/-- Outcome of fetching and base64-decoding one blob in `analyzeFile`:
fetch error, `content.Content == nil`, decode error, or the decoded
text. -/
inductive BlobResult where
  | fetchError : BlobResult
  | noContent : BlobResult
  | decodeError : BlobResult
  | decoded : String → BlobResult
deriving Repr, DecidableEq

/-- The remote response oracles consumed by the pipeline. -/
structure DataSource where
  getUser : Except String UserInfo
  listRepos : Except String (List GhRepo)
  getLanguages : String → Except String (List String)
  getCommits : String → Nat → Except String (List CommitDetail)
  getTree : String → Except String (List TreeEntry)
  getBlob : String → String → BlobResult

/-- The conversion loop of `ListRepositories`
(github_service.go:101-122): builds a `dto.Repository`, leaving
`UserCommits` (and the other unlisted fields) at their zero values. -/
def convertRepo (g : GhRepo) : Repository :=
  { name := g.name
    description := g.description
    createdAt := g.createdAt
    updatedAt := g.updatedAt
    stars := g.stars
    fork := g.fork
    forkSource :=
      match g.fork, g.parentFullName with
      | true, some p => p
      | _, _ => ""
    userCommits := 0
    languagesUsed := []
    fileCount := 0
    commitCount := 0
    includeAnalysis := false
    isSignificant := false }

/-- Embedding of `ListRepositories` (github_service.go:78-125): merged pagination is
abstracted into the oracle; a page-fetch error is wrapped as in the
source. -/
def listRepositories (ds : DataSource) : Except String (List Repository) :=
  match ds.listRepos with
  | Except.error e => Except.error ("failed to list repositories: " ++ e)
  | Except.ok ghRepos => Except.ok (ghRepos.map convertRepo)

/-! ### File sampler (`GetRepositoryContents`, github_service.go:187-220) -/

/-- Deterministic PRNG step standing in for Go's seeded global
`math/rand` source (an LCG; the verified claims depend on the generator
being a deterministic function of the seed, not on its stream). -/
def randNext (state : Nat) : Nat :=
  (6364136223846793005 * state + 1442695040888963407) % (2 ^ 64)

/-- Swap two array cells, identity when an index is out of bounds. -/
def arraySwap {α : Type} (arr : Array α) (i j : Nat) : Array α :=
  if h1 : i < arr.size then
    if h2 : j < arr.size then arr.swap ⟨i, h1⟩ ⟨j, h2⟩ else arr
  else arr

/-- The Fisher–Yates loop of `rand.Shuffle`: for `i = n-1` down to `1`,
draw `j ≤ i` and swap positions `i` and `j`. -/
def fyAux {α : Type} (state : Nat) (i : Nat) (arr : Array α) : Array α :=
  match i with
  | 0 => arr
  | Nat.succ i' =>
    let st := randNext state
    let j := st % (i' + 2)
    fyAux st i' (arraySwap arr (i' + 1) j)

/-- Model of `rand.Seed(seed); rand.Shuffle(...)` on a list. -/
def shuffleGo {α : Type} (seed : Nat) (xs : List α) : List α :=
  (fyAux seed (xs.length - 1) xs.toArray).toList

/-- The code-file filter of `GetRepositoryContents`
(github_service.go:195-200). -/
def codeEntries (entries : List TreeEntry) : List TreeEntry :=
  entries.filter (fun en => en.entryType == "blob" && isCodeFile en.path)

/-- The sampling step of `GetRepositoryContents`
(github_service.go:202-209): shuffle with the configured seed and
truncate only when over capacity. -/
def sampleFiles (cfg : GitHubConfig) (codeFiles : List TreeEntry) : List TreeEntry :=
  if codeFiles.length > cfg.sampleFileCount then
    (shuffleGo cfg.randomSeed codeFiles).take cfg.sampleFileCount
  else codeFiles

/-- Embedding of `analyzeFile` (github_service.go:243-274): `none` on fetch error,
missing content, or base64 decode error; otherwise the populated
`dto.FileAnalysis` (`Size` is the decoded byte length, `Lines` the
newline-split line count). -/
def analyzeFile (ds : DataSource) (repoName : String) (file : TreeEntry) :
    Option FileAnalysis :=
  match ds.getBlob repoName file.path with
  | BlobResult.fetchError => none
  | BlobResult.noContent => none
  | BlobResult.decodeError => none
  | BlobResult.decoded fileContent =>
    some { repo := repoName
           path := file.path
           language := detectLanguage file.path
           size := fileContent.utf8ByteSize
           lines := (splitLines fileContent.toList).length
           hasTests := hasTestIndicators fileContent
           content := fileContent }

/-- Embedding of `GetRepositoryContents` (github_service.go:187-220): tree fetch,
code-file filter, sampling, then per-file analysis where failed files
are silently dropped (`analysis != nil` check = `filterMap`). -/
def getRepositoryContents (ds : DataSource) (cfg : GitHubConfig)
    (repoName : String) : Except String (List FileAnalysis) :=
  match ds.getTree repoName with
  | Except.error e => Except.error ("failed to get repository tree: " ++ e)
  | Except.ok entries =>
    Except.ok ((sampleFiles cfg (codeEntries entries)).filterMap (analyzeFile ds repoName))

/-! ### Repository selection (`PerformFullAudit`, github_service.go:408-434) -/

/-- The ordering used by `sort.Slice(analysisRepos, ...)` with
`less i j = repos[i].UpdatedAt.After(repos[j].UpdatedAt)`: most recent
first. -/
def moreRecent (a b : Repository) : Prop := b.updatedAt ≤ a.updatedAt

instance : DecidableRel moreRecent := fun a b => Int.decLe b.updatedAt a.updatedAt

instance : IsTotal Repository moreRecent :=
  ⟨fun a b => Int.le_total b.updatedAt a.updatedAt⟩

instance : IsTrans Repository moreRecent :=
  ⟨fun _ _ _ h1 h2 => le_trans h2 h1⟩

/-- Sorting by last-update timestamp descending.  `sort.Slice` is an
unstable comparison sort; any sorted permutation models its
postcondition (tie order is unspecified either way). -/
def sortByUpdatedDesc (repos : List Repository) : List Repository :=
  List.insertionSort moreRecent repos

/-- Truncation to the `SampledRepoCount` most recently updated
candidates (github_service.go:426-434). -/
def selectAnalysisRepos (cfg : GitHubConfig) (candidates : List Repository) :
    List Repository :=
  if candidates.length > cfg.sampledRepoCount then
    (sortByUpdatedDesc candidates).take cfg.sampledRepoCount
  else candidates

/-! ### The per-repository analysis loop (github_service.go:436-474) -/

/-- The loop accumulators of `PerformFullAudit`.  Go mutates the shared
`*dto.Repository` records in place; `updatedRepos` records the
post-iteration value of each processed record. -/
structure LoopState where
  allCommits : List CommitDetail
  allFileAnalyses : List FileAnalysis
  analyzedRepos : List String
  reposWithErrors : List String
  updatedRepos : List Repository
deriving Repr, DecidableEq

/-- The empty accumulators the loop starts from. -/
def initState : LoopState := ⟨[], [], [], [], []⟩

/-- One iteration of the analysis loop (github_service.go:442-474):
language fetch (errors ignored), commit fetch (error → recorded),
zero-commit skip, commit aggregation, file fetch (error → recorded),
success bookkeeping. -/
def processRepo (ds : DataSource) (cfg : GitHubConfig) (st : LoopState)
    (repo : Repository) : LoopState :=
  let repo1 :=
    match ds.getLanguages repo.name with
    | Except.ok langs => { repo with languagesUsed := langs }
    | Except.error _ => repo
  match ds.getCommits repo1.name cfg.commitsPerRepo with
  | Except.error _ =>
    { st with reposWithErrors := st.reposWithErrors ++ [repo1.name]
              updatedRepos := st.updatedRepos ++ [repo1] }
  | Except.ok commits =>
    if commits.length = 0 then
      { st with updatedRepos := st.updatedRepos ++ [repo1] }
    else
      let st1 := { st with allCommits := st.allCommits ++ commits }
      let repo2 := { repo1 with commitCount := commits.length }
      match getRepositoryContents ds cfg repo2.name with
      | Except.error _ =>
        { st1 with reposWithErrors := st1.reposWithErrors ++ [repo2.name]
                   updatedRepos := st1.updatedRepos ++ [repo2] }
      | Except.ok fileAnalyses =>
        { st1 with
            allFileAnalyses := st1.allFileAnalyses ++ fileAnalyses
            analyzedRepos := st1.analyzedRepos ++ [repo2.name]
            updatedRepos := st1.updatedRepos ++
              [{ repo2 with fileCount := fileAnalyses.length, includeAnalysis := true }] }

/-- The whole analysis loop over the selected repositories. -/
def processRepos (ds : DataSource) (cfg : GitHubConfig)
    (repos : List Repository) : LoopState :=
  repos.foldl (processRepo ds cfg) initState

/-! ### `PerformFullAudit` (github_service.go:395-514)

`cutoff` stands for `time.Now().AddDate(-AnalysisYears, 0, 0)`; the
calendar arithmetic is outside the model, the recency comparison
`repo.UpdatedAt.After(cutoffDate)` is in it.  The statistics loop
(github_service.go:477-485) reads only fields (`Stars`, `Fork`,
`UserCommits`) that the analysis loop never writes, so reading them
from the pre-loop records is exact; its `IsSignificant` write and the
post-loop record aliasing of the partition lists are not needed by any
claim and are kept out of the assembled result. -/

/-- Embedding of `PerformFullAudit`. -/
def performFullAudit (ds : DataSource) (cfg : GitHubConfig) (cutoff : Int) :
    Except String AuditResult :=
  match ds.getUser with
  | Except.error e => Except.error ("failed to get user info: " ++ e)
  | Except.ok userInfo =>
    match listRepositories ds with
    | Except.error e => Except.error ("failed to get repositories: " ++ e)
    | Except.ok repositories =>
      let originalRepos := repositories.filter (fun r => !r.fork)
      let forkedRepos := repositories.filter (fun r => r.fork)
      let candidateRepos := repositories.filter (fun r => cutoff < r.updatedAt)
      let analysisRepos := selectAnalysisRepos cfg candidateRepos
      let st := processRepos ds cfg analysisRepos
      let totalStars := (repositories.map (fun r => r.stars)).sum
      let significantForks :=
        (repositories.filter (fun r => r.fork && 10 < r.userCommits)).length
      Except.ok
        { userInfo := userInfo
          repoStats :=
            { statistics :=
                { totalRepos := repositories.length
                  originalRepos := originalRepos.length
                  forkedRepos := forkedRepos.length
                  significantForks := significantForks
                  totalStars := totalStars
                  analysisRepos := analysisRepos.length }
              originalRepos := originalRepos
              forkedRepos := forkedRepos }
          fileAnalysis := st.allFileAnalyses
          commitDetails := st.allCommits
          auditParameters := { cfg with token := "[REDACTED]" }
          analysisSummary :=
            { reposAnalyzedForCode := st.analyzedRepos
              reposWithErrors := st.reposWithErrors
              reposWithoutUserCommits := []
              totalReposAttempted := analysisRepos.length
              successfulAnalysisCount := st.analyzedRepos.length } }

/-- The recency-filtered candidate set of a run (empty when the
repository list fetch fails and the audit aborts). -/
def candidateReposOf (ds : DataSource) (cutoff : Int) : List Repository :=
  match listRepositories ds with
  | Except.error _ => []
  | Except.ok repositories => repositories.filter (fun r => cutoff < r.updatedAt)

/-- The post-filter, post-truncation repositories a run attempts to
analyze. -/
def analysisReposOf (ds : DataSource) (cfg : GitHubConfig) (cutoff : Int) :
    List Repository :=
  selectAnalysisRepos cfg (candidateReposOf ds cutoff)

/-- Predicate for an attempted repository whose commit fetch succeeds
with zero commits: such a repository is skipped silently
(github_service.go:456-458), landing in neither `ReposAnalyzedForCode`
nor `ReposWithErrors`. -/
def zeroCommitSkip (ds : DataSource) (cfg : GitHubConfig) (r : Repository) : Bool :=
  match ds.getCommits r.name cfg.commitsPerRepo with
  | Except.ok cs => cs.length = 0
  | Except.error _ => false

/-- Number of attempted repositories skipped for having zero commits. -/
def zeroCommitAttempts (ds : DataSource) (cfg : GitHubConfig)
    (repos : List Repository) : Nat :=
  (repos.filter (zeroCommitSkip ds cfg)).length

/-! ### Concrete runs used as witnesses

A small oracle with one repository per interesting behaviour:
`zero` (commit fetch succeeds with zero commits), `good` (fully
analyzed, one of its sampled blobs fails to decode), `bad` (commit
fetch fails), `treebad` (a fork whose commit fetch succeeds but whose
tree fetch fails) and `stale` (outside the recency window for
`cutoff = 0`). -/

/-- Concrete user payload. -/
def uiPipe : UserInfo :=
  { username := "u", name := "", company := "", location := "", email := "",
    createdAt := 0, publicRepos := 0, publicGists := 0, followers := 0,
    following := 0, subscriptionPlan := "", updatedAt := 0 }

/-- Concrete configuration (the shipped defaults, with a dummy token). -/
def cfgPipe : GitHubConfig :=
  { token := "tok", sampledRepoCount := 10, commitsPerRepo := 50,
    sampleFileCount := 3, analysisYears := 5, includePrivateRepo := false,
    randomSeed := 42, saveDebugJSON := false }

/-- Concrete raw repository payload. -/
def ghPipe (nm : String) (upd : Int) (fk : Bool) : GhRepo :=
  { name := nm, description := "", stars := 1, fork := fk, createdAt := 0,
    updatedAt := upd, parentFullName := if fk then some ("up/src") else none }

/-- Concrete commit payload. -/
def commitPipe (nm : String) : CommitDetail :=
  { repo := nm, sha := "s1", message := "m", date := 0, author := "a",
    filesChanged := [] }

/-- Concrete git tree: two code files and one non-code file. -/
def treePipe : List TreeEntry :=
  [⟨"main.go", "blob"⟩, ⟨"util.go", "blob"⟩, ⟨"README.md", "blob"⟩]

/-- The concrete oracle described above.  The `util.go` blob fails to
base64-decode in every repository. -/
def dsPipe : DataSource :=
  { getUser := Except.ok uiPipe
    listRepos := Except.ok
      [ghPipe ("zero") 10 false, ghPipe ("good") 9 false, ghPipe ("bad") 8 false,
       ghPipe ("treebad") 7 true, ghPipe ("stale") (-5) false]
    getLanguages := fun _ => Except.ok [ "Go" ]
    getCommits := fun nm _ =>
      if nm = "zero" then Except.ok []
      else if nm = "bad" then Except.error ("boom")
      else Except.ok [commitPipe nm]
    getTree := fun nm =>
      if nm = "treebad" then Except.error ("tree boom") else Except.ok treePipe
    getBlob := fun _ path =>
      if path = "util.go" then BlobResult.decodeError
      else BlobResult.decoded ("package main") }

/-- Fallback value for extracting the result of a run known to succeed. -/
def auditFallback : AuditResult :=
  { userInfo := uiPipe
    repoStats := { statistics := ⟨0, 0, 0, 0, 0, 0⟩, originalRepos := [], forkedRepos := [] }
    fileAnalysis := []
    commitDetails := []
    auditParameters := cfgPipe
    analysisSummary := ⟨[], [], [], 0, 0⟩ }

/-- The audit result of the concrete run (it succeeds, so the fallback
is never taken). -/
def auditPipe : AuditResult :=
  match performFullAudit dsPipe cfgPipe 0 with
  | Except.ok r => r
  | Except.error _ => auditFallback

/-- An oracle whose user-profile fetch fails. -/
def dsUserErr : DataSource :=
  { getUser := Except.error ("boom")
    listRepos := Except.ok []
    getLanguages := fun _ => Except.ok []
    getCommits := fun _ _ => Except.ok []
    getTree := fun _ => Except.ok []
    getBlob := fun _ _ => BlobResult.decoded ("") }

/-- The post-conversion record of the `treebad` repository. -/
def repoTreebad : Repository := convertRepo (ghPipe ("treebad") 7 true)

/-- The post-conversion record of the `good` repository. -/
def repoGood : Repository := convertRepo (ghPipe ("good") 9 false)

/-- Configuration with `SampledRepoCount = 2` for the truncation
scenario. -/
def cfgTwo : GitHubConfig := { cfgPipe with sampledRepoCount := 2 }

/-- A non-fork candidate repository with a given update instant. -/
def repoCand (nm : String) (upd : Int) : Repository :=
  convertRepo (ghPipe nm upd false)

/-- Five recency-eligible candidates with distinct update instants. -/
def candsFive : List Repository :=
  [repoCand ("r1") 3, repoCand ("r2") 9, repoCand ("r3") 1,
   repoCand ("r4") 7, repoCand ("r5") 5]

/-! ## Theorems -/

/-! ### Classifier lemmas -/

theorem afterLastSep_no_sep (sep : Char) :
    ∀ cs : List Char, sep ∉ afterLastSep sep cs := by
  intro cs
  induction cs with
  | nil => simp [afterLastSep]
  | cons c cs ih =>
    unfold afterLastSep
    by_cases h : sep ∈ cs
    · simp [h, ih]
    · by_cases hc : c = sep
      · simp [h, hc]
      · simp [h, hc]
        exact fun heq => hc heq.symm

theorem afterLastSep_decomp (sep : Char) :
    ∀ cs : List Char, sep ∈ cs →
      ∃ pre, cs = pre ++ sep :: afterLastSep sep cs := by
  intro cs
  induction cs with
  | nil => intro h; simp at h
  | cons c cs ih =>
    intro h
    by_cases hcs : sep ∈ cs
    · obtain ⟨pre, hpre⟩ := ih hcs
      refine ⟨c :: pre, ?_⟩
      unfold afterLastSep
      rw [if_pos hcs]
      simpa using hpre
    · have hc : c = sep := by
        rcases List.mem_cons.mp h with h1 | h2
        · exact h1.symm
        · exact absurd h2 hcs
      refine ⟨[], ?_⟩
      unfold afterLastSep
      rw [if_neg hcs, if_pos hc]
      simp [hc]

theorem extScan_at_dot :
    ∀ (pre rest : List Char), (∀ c ∈ pre, c ≠ '.' ∧ c ≠ '/') →
      extScan (pre ++ '.' :: rest) = some (pre ++ [ '.' ]) := by
  intro pre
  induction pre with
  | nil => intro rest _; rfl
  | cons c pre ih =>
    intro rest hall
    have hc := hall c (by simp)
    unfold extScan
    simp only [List.cons_append]
    rw [if_neg hc.2, if_neg hc.1, ih rest (fun d hd => hall d (by simp [hd]))]
    rfl

theorem lookupLanguage_code_ext :
    ∀ s ∈ codeExtensionsList, s ≠ ".cc" → s ≠ ".cxx" → lookupLanguage s ≠ "Unknown" := by
  decide

theorem toLowerChar_dot : toLowerChar '.' = '.' := by decide

theorem toLowerChar_slash : toLowerChar '/' = '/' := by decide

theorem codeExt_no_slash : ∀ s ∈ codeExtensionsList, '/' ∉ s.toList := by decide

/-- C2 (corrected): `isCodeFile p = true` implies
`detectLanguage p ≠ "Unknown"` for every path whose extension is not
`.cc` or `.cxx`.  The two excluded extensions are accepted by
`isCodeFile`'s 20-entry table but missing from `detectLanguage`'s
18-entry table, so the unrestricted implication of the claim is false
(see the counterexample at path `utils.cc`). -/
theorem isCodeFile_implies_detectLanguage_known (p : String) (h : isCodeFile p = true)
    (h1 : splitExtLower p ≠ ".cc") (h2 : splitExtLower p ≠ ".cxx") :
    detectLanguage p ≠ "Unknown" := by
  unfold isCodeFile at h
  by_cases hdot : '.' ∈ p.toList
  swap
  · rw [if_neg hdot] at h; exact absurd h (by simp)
  rw [if_pos hdot] at h
  have hmem : splitExtLower p ∈ codeExtensionsList := by simpa using h
  have hkey : (splitExtLower p).toList
      = '.' :: (afterLastSep '.' p.toList).map toLowerChar := rfl
  have hslash : ∀ c ∈ afterLastSep '.' p.toList, c ≠ '/' := by
    intro c hc hceq
    have hmm : '/' ∈ (splitExtLower p).toList := by
      rw [hkey]
      refine List.mem_cons_of_mem _ ?_
      have hmap := List.mem_map_of_mem toLowerChar hc
      rw [hceq, toLowerChar_slash] at hmap
      exact hmap
    exact codeExt_no_slash _ hmem hmm
  have hdotfree : ∀ c ∈ afterLastSep '.' p.toList, c ≠ '.' := by
    intro c hc hceq
    exact afterLastSep_no_sep '.' p.toList (hceq ▸ hc)
  obtain ⟨pre, hpre⟩ := afterLastSep_decomp '.' p.toList hdot
  have hsplit : splitExtLower p
      = String.mk ('.' :: (afterLastSep '.' p.toList).map toLowerChar) := rfl
  generalize hgen : afterLastSep '.' p.toList = l at hpre hslash hdotfree hsplit
  have hrev : p.toList.reverse = l.reverse ++ '.' :: pre.reverse := by
    rw [hpre]
    simp
  have hscan := extScan_at_dot l.reverse pre.reverse
    (fun c hc => ⟨hdotfree c (List.mem_reverse.mp hc), hslash c (List.mem_reverse.mp hc)⟩)
  have hext : filepathExt p = String.mk ('.' :: l) := by
    unfold filepathExt
    rw [hrev, hscan]
    simp
  have hdl : detectLanguage p = lookupLanguage (splitExtLower p) := by
    unfold detectLanguage
    rw [hext, hsplit]
    simp [String.toList, toLowerChar_dot]
  rw [hdl]
  exact lookupLanguage_code_ext _ hmem h1 h2

/-- C2 counterexample: `utils.cc` is classified as code (its extension
sits in `isCodeFile`'s table) but `detectLanguage` does not know `.cc`
and returns `"Unknown"`. -/
theorem isCodeFile_detectLanguage_cex :
    isCodeFile ("utils.cc") = true ∧ detectLanguage ("utils.cc") = "Unknown" := by
  decide

/-- C2 witness: the amended implication applied at `main.go`. -/
theorem isCodeFile_implies_detectLanguage_known_witness :
    detectLanguage ("main.go") ≠ "Unknown" :=
  isCodeFile_implies_detectLanguage_known ("main.go") (by decide) (by decide) (by decide)

/-! ### Scorer evaluation -/

theorem splitLines_ne_nil : ∀ cs : List Char, splitLines cs ≠ [] := by
  intro cs
  induction cs with
  | nil => simp [splitLines]
  | cons c cs ih =>
    unfold splitLines
    rcases h : splitLines cs with _ | ⟨l, ls⟩
    · simp
    · by_cases hc : c = '\n' <;> simp [hc]

/-- C3 (code bug): the claim — and the repository's own unit tests
`TestAssessCodeQuality` / `TestAssessComplexity` ("empty content"
cases) — say the empty string yields `"Unknown"`, but
`strings.Split("", "\n")` is `[""]`, so `totalLines` is `1`, the
`totalLines == 0` guard is dead code (`splitLines` never returns an
empty list), and the code actually returns `"Needs Improvement"` and
`"Low"` on the empty string. -/
theorem scorers_empty_content_eval :
    assessCodeQuality ("") = "Needs Improvement" ∧ assessCodeQuality ("") ≠ "Unknown" ∧
    assessComplexity ("") = "Low" ∧ assessComplexity ("") ≠ "Unknown" := by
  decide

/-! ### Repository selection (recency truncation) -/

/-- C5 (confirmed): when more candidates survive the recency filter
than `SampledRepoCount`, the selected list has exactly
`SampledRepoCount` elements, is ordered by last-update timestamp
descending, consists of candidates each at least as recent as every
candidate left out, and is independent of `RandomSeed` (no random
sampling). -/
theorem selectAnalysisRepos_most_recent (cfg : GitHubConfig) (candidates : List Repository)
    (h : candidates.length > cfg.sampledRepoCount) :
    (selectAnalysisRepos cfg candidates).length = cfg.sampledRepoCount ∧
    (selectAnalysisRepos cfg candidates).Pairwise moreRecent ∧
    (∃ dropped,
      (selectAnalysisRepos cfg candidates ++ dropped).Perm candidates ∧
      ∀ a ∈ selectAnalysisRepos cfg candidates, ∀ b ∈ dropped, moreRecent a b) ∧
    (∀ s1 s2 : Nat,
      selectAnalysisRepos { cfg with randomSeed := s1 } candidates
        = selectAnalysisRepos { cfg with randomSeed := s2 } candidates) := by
  have hsel : selectAnalysisRepos cfg candidates
      = (sortByUpdatedDesc candidates).take cfg.sampledRepoCount := by
    unfold selectAnalysisRepos
    rw [if_pos h]
  have hlen : (sortByUpdatedDesc candidates).length = candidates.length :=
    List.length_insertionSort moreRecent candidates
  have hsorted : (sortByUpdatedDesc candidates).Pairwise moreRecent :=
    List.sorted_insertionSort moreRecent candidates
  have hperm : (sortByUpdatedDesc candidates).Perm candidates :=
    List.perm_insertionSort moreRecent candidates
  refine ⟨?_, ?_, ?_, ?_⟩
  · rw [hsel, List.length_take, hlen]
    omega
  · rw [hsel]
    exact hsorted.sublist (List.take_sublist _ _)
  · refine ⟨(sortByUpdatedDesc candidates).drop cfg.sampledRepoCount, ?_, ?_⟩
    · rw [hsel, List.take_append_drop]
      exact hperm
    · intro a ha b hb
      rw [hsel] at ha
      have hsplit : List.Pairwise moreRecent
          (List.take cfg.sampledRepoCount (sortByUpdatedDesc candidates)
            ++ List.drop cfg.sampledRepoCount (sortByUpdatedDesc candidates)) := by
        rw [List.take_append_drop]
        exact hsorted
      exact (List.pairwise_append.mp hsplit).2.2 a ha b hb
  · intro s1 s2
    rfl

/-- C5 witness: with `SampledRepoCount = 2` and five distinct-instant
candidates, exactly two repositories are selected. -/
theorem selectAnalysisRepos_most_recent_witness :
    (selectAnalysisRepos cfgTwo candsFive).length = cfgTwo.sampledRepoCount :=
  (selectAnalysisRepos_most_recent cfgTwo candsFive (by decide)).1

/-! ### File sampler -/

/-- C6 (confirmed): the file sampler of `GetRepositoryContents` is a
deterministic function of the random seed, the sample size and the
ordered candidate list (two runs on equal inputs agree), and whenever
the candidates number at most `SampleFileCount` the output is the input
list unchanged — no shuffle is applied. -/
theorem sampleFiles_deterministic (cfg cfg' : GitHubConfig) (files files' : List TreeEntry)
    (hseed : cfg.randomSeed = cfg'.randomSeed)
    (hcount : cfg.sampleFileCount = cfg'.sampleFileCount)
    (hfiles : files = files') :
    sampleFiles cfg files = sampleFiles cfg' files' ∧
    (files.length ≤ cfg.sampleFileCount → sampleFiles cfg files = files) := by
  subst hfiles
  constructor
  · unfold sampleFiles
    rw [hseed, hcount]
  · intro hle
    unfold sampleFiles
    rw [if_neg (by omega)]

/-- C6 witness: one candidate against a sample size of three — returned
unchanged. -/
theorem sampleFiles_deterministic_witness :
    sampleFiles cfgPipe [⟨"a.go", "blob"⟩] = [⟨"a.go", "blob"⟩] :=
  (sampleFiles_deterministic cfgPipe cfgPipe [⟨"a.go", "blob"⟩] [⟨"a.go", "blob"⟩]
    rfl rfl rfl).2 (by decide)

/-! ### Analysis-loop lemmas

Facts about one loop iteration (`processRepo`) and their liftings to
the whole fold (`processRepos`): the accumulators only grow, each
failure mode lands the repository exactly where the source puts it,
and successful or zero-commit names never reach the error list. -/

theorem processRepo_errors_mono (ds : DataSource) (cfg : GitHubConfig)
    (st : LoopState) (repo : Repository) :
    ∀ x ∈ st.reposWithErrors, x ∈ (processRepo ds cfg st repo).reposWithErrors := by
  intro x hx
  unfold processRepo
  rcases hL : ds.getLanguages repo.name with e2 | langs <;>
    rcases hC : ds.getCommits repo.name cfg.commitsPerRepo with e | cs <;>
      try rcases cs with _ | ⟨c0, cs0⟩
  all_goals try rcases hT : getRepositoryContents ds cfg repo.name with e3 | fs
  all_goals simp_all

theorem processRepo_commits_mono (ds : DataSource) (cfg : GitHubConfig)
    (st : LoopState) (repo : Repository) :
    ∀ x ∈ st.allCommits, x ∈ (processRepo ds cfg st repo).allCommits := by
  intro x hx
  unfold processRepo
  rcases hL : ds.getLanguages repo.name with e2 | langs <;>
    rcases hC : ds.getCommits repo.name cfg.commitsPerRepo with e | cs <;>
      try rcases cs with _ | ⟨c0, cs0⟩
  all_goals try rcases hT : getRepositoryContents ds cfg repo.name with e3 | fs
  all_goals simp_all

theorem processRepo_analyzed_mono (ds : DataSource) (cfg : GitHubConfig)
    (st : LoopState) (repo : Repository) :
    ∀ x ∈ st.analyzedRepos, x ∈ (processRepo ds cfg st repo).analyzedRepos := by
  intro x hx
  unfold processRepo
  rcases hL : ds.getLanguages repo.name with e2 | langs <;>
    rcases hC : ds.getCommits repo.name cfg.commitsPerRepo with e | cs <;>
      try rcases cs with _ | ⟨c0, cs0⟩
  all_goals try rcases hT : getRepositoryContents ds cfg repo.name with e3 | fs
  all_goals simp_all

theorem processRepo_updated_mono (ds : DataSource) (cfg : GitHubConfig)
    (st : LoopState) (repo : Repository) :
    ∀ x ∈ st.updatedRepos, x ∈ (processRepo ds cfg st repo).updatedRepos := by
  intro x hx
  unfold processRepo
  rcases hL : ds.getLanguages repo.name with e2 | langs <;>
    rcases hC : ds.getCommits repo.name cfg.commitsPerRepo with e | cs <;>
      try rcases cs with _ | ⟨c0, cs0⟩
  all_goals try rcases hT : getRepositoryContents ds cfg repo.name with e3 | fs
  all_goals simp_all

theorem getRepositoryContents_tree_error (ds : DataSource) (cfg : GitHubConfig)
    (nm e : String) (hT : ds.getTree nm = Except.error e) :
    getRepositoryContents ds cfg nm
      = Except.error ("failed to get repository tree: " ++ e) := by
  unfold getRepositoryContents
  rw [hT]

theorem getRepositoryContents_tree_ok (ds : DataSource) (cfg : GitHubConfig)
    (nm : String) (entries : List TreeEntry) (hT : ds.getTree nm = Except.ok entries) :
    getRepositoryContents ds cfg nm
      = Except.ok ((sampleFiles cfg (codeEntries entries)).filterMap (analyzeFile ds nm)) := by
  unfold getRepositoryContents
  rw [hT]

theorem processRepo_commit_error (ds : DataSource) (cfg : GitHubConfig)
    (st : LoopState) (repo : Repository) (e : String)
    (hC : ds.getCommits repo.name cfg.commitsPerRepo = Except.error e) :
    (processRepo ds cfg st repo).reposWithErrors = st.reposWithErrors ++ [repo.name] ∧
    (processRepo ds cfg st repo).analyzedRepos = st.analyzedRepos ∧
    (processRepo ds cfg st repo).allCommits = st.allCommits := by
  unfold processRepo
  rcases hL : ds.getLanguages repo.name with e2 | langs <;> simp [hL, hC]

theorem processRepo_tree_error (ds : DataSource) (cfg : GitHubConfig)
    (st : LoopState) (repo : Repository) (cs : List CommitDetail) (e : String)
    (hC : ds.getCommits repo.name cfg.commitsPerRepo = Except.ok cs)
    (hne : cs ≠ []) (hT : ds.getTree repo.name = Except.error e) :
    (processRepo ds cfg st repo).reposWithErrors = st.reposWithErrors ++ [repo.name] ∧
    (processRepo ds cfg st repo).analyzedRepos = st.analyzedRepos ∧
    (processRepo ds cfg st repo).allCommits = st.allCommits ++ cs := by
  have hG := getRepositoryContents_tree_error ds cfg repo.name e hT
  unfold processRepo
  rcases hL : ds.getLanguages repo.name with e2 | langs <;>
    simp [hL, hC, hG, hne, List.length_eq_zero]

theorem processRepo_success (ds : DataSource) (cfg : GitHubConfig)
    (st : LoopState) (repo : Repository) (cs : List CommitDetail)
    (entries : List TreeEntry)
    (hC : ds.getCommits repo.name cfg.commitsPerRepo = Except.ok cs)
    (hne : cs ≠ []) (hT : ds.getTree repo.name = Except.ok entries) :
    (processRepo ds cfg st repo).reposWithErrors = st.reposWithErrors ∧
    (processRepo ds cfg st repo).analyzedRepos = st.analyzedRepos ++ [repo.name] ∧
    (processRepo ds cfg st repo).allCommits = st.allCommits ++ cs ∧
    ∃ rec, (processRepo ds cfg st repo).updatedRepos = st.updatedRepos ++ [rec] ∧
      rec.name = repo.name ∧ rec.includeAnalysis = true := by
  have hG := getRepositoryContents_tree_ok ds cfg repo.name entries hT
  unfold processRepo
  rcases hL : ds.getLanguages repo.name with e2 | langs <;>
    simp [hL, hC, hG, hne, List.length_eq_zero]

theorem processRepo_analyzed_preserve (ds : DataSource) (cfg : GitHubConfig)
    (st : LoopState) (repo : Repository) (nm e : String)
    (hT : ds.getTree nm = Except.error e)
    (hnm : nm ∉ st.analyzedRepos) :
    nm ∉ (processRepo ds cfg st repo).analyzedRepos := by
  unfold processRepo
  rcases hL : ds.getLanguages repo.name with e2 | langs <;>
    rcases hC : ds.getCommits repo.name cfg.commitsPerRepo with e3 | cs <;>
      try rcases cs with _ | ⟨c0, cs0⟩
  all_goals try rcases hG : getRepositoryContents ds cfg repo.name with e4 | fs
  all_goals simp_all
  all_goals intro heq
  all_goals rw [← heq] at hG
  all_goals rw [getRepositoryContents_tree_error ds cfg nm e hT] at hG
  all_goals simp at hG

theorem processRepo_errors_preserve (ds : DataSource) (cfg : GitHubConfig)
    (st : LoopState) (repo : Repository) (nm : String)
    (hCok : (ds.getCommits nm cfg.commitsPerRepo).isOk = true)
    (hTok : (ds.getTree nm).isOk = true)
    (hnm : nm ∉ st.reposWithErrors) :
    nm ∉ (processRepo ds cfg st repo).reposWithErrors := by
  unfold processRepo
  rcases hL : ds.getLanguages repo.name with e2 | langs <;>
    rcases hC : ds.getCommits repo.name cfg.commitsPerRepo with e3 | cs <;>
      try rcases cs with _ | ⟨c0, cs0⟩
  all_goals try rcases hG : getRepositoryContents ds cfg repo.name with e4 | fs
  all_goals simp_all
  all_goals intro heq
  all_goals rw [← heq] at hC hG
  all_goals first
    | (rw [hC] at hCok
       simp [Except.isOk, Except.toBool] at hCok
       done)
    | (rcases hT2 : ds.getTree nm with e5 | entries
       · rw [hT2] at hTok
         simp [Except.isOk, Except.toBool] at hTok
       · rw [getRepositoryContents_tree_ok ds cfg nm entries hT2] at hG
         simp at hG)

theorem processRepo_count (ds : DataSource) (cfg : GitHubConfig)
    (st : LoopState) (repo : Repository) :
    (processRepo ds cfg st repo).analyzedRepos.length
      + (processRepo ds cfg st repo).reposWithErrors.length
      + (if zeroCommitSkip ds cfg repo then 1 else 0)
    = st.analyzedRepos.length + st.reposWithErrors.length + 1 := by
  unfold processRepo zeroCommitSkip
  rcases hL : ds.getLanguages repo.name with e2 | langs <;>
    rcases hC : ds.getCommits repo.name cfg.commitsPerRepo with e3 | cs <;>
      try rcases cs with _ | ⟨c0, cs0⟩
  all_goals try rcases hG : getRepositoryContents ds cfg repo.name with e4 | fs
  all_goals simp_all
  all_goals omega

theorem foldl_errors_mono (ds : DataSource) (cfg : GitHubConfig) :
    ∀ (repos : List Repository) (st : LoopState) (x : String),
      x ∈ st.reposWithErrors →
      x ∈ (repos.foldl (processRepo ds cfg) st).reposWithErrors := by
  intro repos
  induction repos with
  | nil => intro st x hx; simpa using hx
  | cons r rs ih =>
    intro st x hx
    simp only [List.foldl_cons]
    exact ih _ x (processRepo_errors_mono ds cfg st r x hx)

theorem foldl_commits_mono (ds : DataSource) (cfg : GitHubConfig) :
    ∀ (repos : List Repository) (st : LoopState) (x : CommitDetail),
      x ∈ st.allCommits →
      x ∈ (repos.foldl (processRepo ds cfg) st).allCommits := by
  intro repos
  induction repos with
  | nil => intro st x hx; simpa using hx
  | cons r rs ih =>
    intro st x hx
    simp only [List.foldl_cons]
    exact ih _ x (processRepo_commits_mono ds cfg st r x hx)

theorem foldl_analyzed_mono (ds : DataSource) (cfg : GitHubConfig) :
    ∀ (repos : List Repository) (st : LoopState) (x : String),
      x ∈ st.analyzedRepos →
      x ∈ (repos.foldl (processRepo ds cfg) st).analyzedRepos := by
  intro repos
  induction repos with
  | nil => intro st x hx; simpa using hx
  | cons r rs ih =>
    intro st x hx
    simp only [List.foldl_cons]
    exact ih _ x (processRepo_analyzed_mono ds cfg st r x hx)

theorem foldl_updated_mono (ds : DataSource) (cfg : GitHubConfig) :
    ∀ (repos : List Repository) (st : LoopState) (x : Repository),
      x ∈ st.updatedRepos →
      x ∈ (repos.foldl (processRepo ds cfg) st).updatedRepos := by
  intro repos
  induction repos with
  | nil => intro st x hx; simpa using hx
  | cons r rs ih =>
    intro st x hx
    simp only [List.foldl_cons]
    exact ih _ x (processRepo_updated_mono ds cfg st r x hx)

theorem foldl_commit_error_hit (ds : DataSource) (cfg : GitHubConfig) :
    ∀ (repos : List Repository) (st : LoopState) (repo : Repository) (e : String),
      repo ∈ repos →
      ds.getCommits repo.name cfg.commitsPerRepo = Except.error e →
      repo.name ∈ (repos.foldl (processRepo ds cfg) st).reposWithErrors := by
  intro repos
  induction repos with
  | nil => intro st repo e h; simp at h
  | cons r rs ih =>
    intro st repo e hmem hC
    simp only [List.foldl_cons]
    rcases List.mem_cons.mp hmem with heq | htl
    · subst heq
      have h1 := (processRepo_commit_error ds cfg st repo e hC).1
      exact foldl_errors_mono ds cfg rs _ _ (by rw [h1]; simp)
    · exact ih _ repo e htl hC

theorem foldl_tree_error_hit (ds : DataSource) (cfg : GitHubConfig) :
    ∀ (repos : List Repository) (st : LoopState) (repo : Repository)
      (cs : List CommitDetail) (e : String),
      repo ∈ repos →
      ds.getCommits repo.name cfg.commitsPerRepo = Except.ok cs →
      cs ≠ [] →
      ds.getTree repo.name = Except.error e →
      repo.name ∈ (repos.foldl (processRepo ds cfg) st).reposWithErrors ∧
      ∀ c ∈ cs, c ∈ (repos.foldl (processRepo ds cfg) st).allCommits := by
  intro repos
  induction repos with
  | nil => intro st repo cs e h; simp at h
  | cons r rs ih =>
    intro st repo cs e hmem hC hne hT
    simp only [List.foldl_cons]
    rcases List.mem_cons.mp hmem with heq | htl
    · subst heq
      obtain ⟨h1, _, h3⟩ := processRepo_tree_error ds cfg st repo cs e hC hne hT
      constructor
      · exact foldl_errors_mono ds cfg rs _ _ (by rw [h1]; simp)
      · intro c hc
        exact foldl_commits_mono ds cfg rs _ _ (by rw [h3]; simp [hc])
    · exact ih _ repo cs e htl hC hne hT

theorem foldl_success_hit (ds : DataSource) (cfg : GitHubConfig) :
    ∀ (repos : List Repository) (st : LoopState) (repo : Repository)
      (cs : List CommitDetail) (entries : List TreeEntry),
      repo ∈ repos →
      ds.getCommits repo.name cfg.commitsPerRepo = Except.ok cs →
      cs ≠ [] →
      ds.getTree repo.name = Except.ok entries →
      repo.name ∈ (repos.foldl (processRepo ds cfg) st).analyzedRepos ∧
      (∃ rec, rec ∈ (repos.foldl (processRepo ds cfg) st).updatedRepos ∧
        rec.name = repo.name ∧ rec.includeAnalysis = true) := by
  intro repos
  induction repos with
  | nil => intro st repo cs entries h; simp at h
  | cons r rs ih =>
    intro st repo cs entries hmem hC hne hT
    simp only [List.foldl_cons]
    rcases List.mem_cons.mp hmem with heq | htl
    · subst heq
      obtain ⟨_, h2, _, rec, h4, h5, h6⟩ :=
        processRepo_success ds cfg st repo cs entries hC hne hT
      constructor
      · exact foldl_analyzed_mono ds cfg rs _ _ (by rw [h2]; simp)
      · exact ⟨rec, foldl_updated_mono ds cfg rs _ _ (by rw [h4]; simp), h5, h6⟩
    · exact ih _ repo cs entries htl hC hne hT

theorem foldl_analyzed_preserve (ds : DataSource) (cfg : GitHubConfig)
    (nm e : String) (hT : ds.getTree nm = Except.error e) :
    ∀ (repos : List Repository) (st : LoopState),
      nm ∉ st.analyzedRepos →
      nm ∉ (repos.foldl (processRepo ds cfg) st).analyzedRepos := by
  intro repos
  induction repos with
  | nil => intro st h; simpa using h
  | cons r rs ih =>
    intro st h
    simp only [List.foldl_cons]
    exact ih _ (processRepo_analyzed_preserve ds cfg st r nm e hT h)

theorem foldl_errors_preserve (ds : DataSource) (cfg : GitHubConfig)
    (nm : String) (hCok : (ds.getCommits nm cfg.commitsPerRepo).isOk = true)
    (hTok : (ds.getTree nm).isOk = true) :
    ∀ (repos : List Repository) (st : LoopState),
      nm ∉ st.reposWithErrors →
      nm ∉ (repos.foldl (processRepo ds cfg) st).reposWithErrors := by
  intro repos
  induction repos with
  | nil => intro st h; simpa using h
  | cons r rs ih =>
    intro st h
    simp only [List.foldl_cons]
    exact ih _ (processRepo_errors_preserve ds cfg st r nm hCok hTok h)

theorem foldl_count (ds : DataSource) (cfg : GitHubConfig) :
    ∀ (repos : List Repository) (st : LoopState),
      (repos.foldl (processRepo ds cfg) st).analyzedRepos.length
        + (repos.foldl (processRepo ds cfg) st).reposWithErrors.length
        + zeroCommitAttempts ds cfg repos
      = st.analyzedRepos.length + st.reposWithErrors.length + repos.length := by
  intro repos
  induction repos with
  | nil => intro st; simp [zeroCommitAttempts]
  | cons r rs ih =>
    intro st
    have hstep := processRepo_count ds cfg st r
    have hrec := ih (processRepo ds cfg st r)
    have hz : zeroCommitAttempts ds cfg (r :: rs)
        = (if zeroCommitSkip ds cfg r then 1 else 0) + zeroCommitAttempts ds cfg rs := by
      unfold zeroCommitAttempts
      by_cases h : zeroCommitSkip ds cfg r <;> (simp [List.filter_cons, h]; try omega)
    simp only [List.foldl_cons] at *
    by_cases hskip : zeroCommitSkip ds cfg r <;>
      (simp only [hskip, if_true, if_false, List.length_cons] at hstep hz
       rw [hz]
       simp only [List.length_cons]
       omega)

/-! ### Unpacking a successful audit -/

theorem length_filter_partition {α : Type} (p : α → Bool) :
    ∀ l : List α, (l.filter (fun a => !p a)).length + (l.filter p).length = l.length := by
  intro l
  induction l with
  | nil => rfl
  | cons a l ih =>
    by_cases h : p a <;> (simp [List.filter_cons, h]; omega)

theorem length_filterMap_lt {α β : Type} (g : α → Option β) :
    ∀ (l : List α) (x : α), x ∈ l → g x = none →
      (l.filterMap g).length < l.length := by
  intro l
  induction l with
  | nil => intro x hx; simp at hx
  | cons a l ih =>
    intro x hx hgx
    rcases List.mem_cons.mp hx with heq | htl
    · subst heq
      rw [List.filterMap_cons, hgx]
      have hle := List.length_filterMap_le g l
      simp only [List.length_cons]
      omega
    · rw [List.filterMap_cons]
      rcases hga : g a with _ | b
      · have := ih x htl hgx
        simp only [List.length_cons]
        omega
      · have := ih x htl hgx
        simp only [List.length_cons, List.length_cons]
        omega

theorem performFullAudit_ok_fields (ds : DataSource) (cfg : GitHubConfig)
    (cutoff : Int) (r : AuditResult)
    (h : performFullAudit ds cfg cutoff = Except.ok r) :
    r.analysisSummary.reposAnalyzedForCode
        = (processRepos ds cfg (analysisReposOf ds cfg cutoff)).analyzedRepos ∧
    r.analysisSummary.reposWithErrors
        = (processRepos ds cfg (analysisReposOf ds cfg cutoff)).reposWithErrors ∧
    r.analysisSummary.totalReposAttempted = (analysisReposOf ds cfg cutoff).length ∧
    r.commitDetails = (processRepos ds cfg (analysisReposOf ds cfg cutoff)).allCommits ∧
    r.fileAnalysis = (processRepos ds cfg (analysisReposOf ds cfg cutoff)).allFileAnalyses ∧
    r.repoStats.statistics.analysisRepos = (analysisReposOf ds cfg cutoff).length ∧
    ∃ gs, ds.listRepos = Except.ok gs ∧
      r.repoStats.statistics.totalRepos = (gs.map convertRepo).length ∧
      r.repoStats.statistics.originalRepos
          = ((gs.map convertRepo).filter (fun x => !x.fork)).length ∧
      r.repoStats.statistics.forkedRepos
          = ((gs.map convertRepo).filter (fun x => x.fork)).length ∧
      r.repoStats.statistics.significantForks
          = ((gs.map convertRepo).filter (fun x => x.fork && 10 < x.userCommits)).length := by
  unfold performFullAudit at h
  rcases hU : ds.getUser with e0 | u
  · rw [hU] at h; simp at h
  rw [hU] at h
  rcases hR : ds.listRepos with e1 | gs
  · rw [show listRepositories ds = Except.error ("failed to list repositories: " ++ e1) from
      by simp [listRepositories, hR]] at h
    simp at h
  rw [show listRepositories ds = Except.ok (gs.map convertRepo) from
    by simp [listRepositories, hR]] at h
  simp only [Except.ok.injEq] at h
  subst h
  refine ⟨?_, ?_, ?_, ?_, ?_, ?_, gs, rfl, ?_, ?_, ?_, ?_⟩ <;>
    simp [processRepos, analysisReposOf, candidateReposOf, listRepositories, hR]

/-! ### Pipeline claims -/

/-- C1 (corrected): for every successful audit,
`TotalReposAttempted` equals
`len(ReposAnalyzedForCode) + len(ReposWithErrors)` **plus the number of
attempted repositories whose commit fetch succeeded with zero commits**
— those are skipped silently and recorded in neither list, so the
unqualified equality of the claim fails whenever such a repository
exists (see the counterexample). -/
theorem totalReposAttempted_decomposition (ds : DataSource) (cfg : GitHubConfig)
    (cutoff : Int) (r : AuditResult)
    (h : performFullAudit ds cfg cutoff = Except.ok r) :
    r.analysisSummary.totalReposAttempted
      = r.analysisSummary.reposAnalyzedForCode.length
        + r.analysisSummary.reposWithErrors.length
        + zeroCommitAttempts ds cfg (analysisReposOf ds cfg cutoff) := by
  obtain ⟨h1, h2, h3, _⟩ := performFullAudit_ok_fields ds cfg cutoff r h
  rw [h1, h2, h3]
  unfold processRepos
  have hcount := foldl_count ds cfg (analysisReposOf ds cfg cutoff) initState
  simp only [initState, List.length_nil] at hcount ⊢
  omega

/-- C1 witness: the decomposition on the concrete run
(`4 = 1 + 2 + 1`). -/
theorem totalReposAttempted_decomposition_witness :
    auditPipe.analysisSummary.totalReposAttempted
      = auditPipe.analysisSummary.reposAnalyzedForCode.length
        + auditPipe.analysisSummary.reposWithErrors.length
        + zeroCommitAttempts dsPipe cfgPipe (analysisReposOf dsPipe cfgPipe 0) :=
  totalReposAttempted_decomposition dsPipe cfgPipe 0 auditPipe (by rfl)

/-- C1 counterexample: the concrete run succeeds with
`TotalReposAttempted = 4` but only one analyzed and two errored
repository — the `zero`-commit repository is in neither list, so
`4 ≠ 1 + 2`. -/
theorem totalReposAttempted_invariant_cex :
    (performFullAudit dsPipe cfgPipe 0).map
        (fun r => (r.analysisSummary.totalReposAttempted,
          r.analysisSummary.reposAnalyzedForCode.length,
          r.analysisSummary.reposWithErrors.length))
      = Except.ok (4, 1, 2) ∧ (4 : Nat) ≠ 1 + 2 :=
  ⟨by rfl, by decide⟩

/-- C4 (confirmed): `PerformFullAudit` fails exactly when the
user-profile fetch or the repository-list fetch fails, each wrapped
with its stage message; a per-repository commit-fetch failure never
fails the audit — the repository name is recorded in
`ReposWithErrors` of the successful result (the file-tree case is the
C8 theorem). -/
theorem performFullAudit_fatal_vs_recorded (ds : DataSource) (cfg : GitHubConfig)
    (cutoff : Int) :
    ((performFullAudit ds cfg cutoff).isOk = true ↔
      ds.getUser.isOk = true ∧ ds.listRepos.isOk = true) ∧
    (∀ e, ds.getUser = Except.error e →
      performFullAudit ds cfg cutoff
        = Except.error ("failed to get user info: " ++ e)) ∧
    (∀ u e, ds.getUser = Except.ok u → ds.listRepos = Except.error e →
      performFullAudit ds cfg cutoff
        = Except.error
            ("failed to get repositories: " ++ ("failed to list repositories: " ++ e))) ∧
    (∀ repo e r, repo ∈ analysisReposOf ds cfg cutoff →
      ds.getCommits repo.name cfg.commitsPerRepo = Except.error e →
      performFullAudit ds cfg cutoff = Except.ok r →
      repo.name ∈ r.analysisSummary.reposWithErrors) := by
  refine ⟨⟨?_, ?_⟩, ?_, ?_, ?_⟩
  · intro hok
    unfold performFullAudit at hok
    rcases hU : ds.getUser with e | u
    · rw [hU] at hok
      simp [Except.isOk, Except.toBool] at hok
    rw [hU] at hok
    rcases hR : ds.listRepos with e | gs
    · rw [show listRepositories ds = Except.error ("failed to list repositories: " ++ e) from
        by simp [listRepositories, hR]] at hok
      simp [Except.isOk, Except.toBool] at hok
    · simp [Except.isOk, Except.toBool]
  · rintro ⟨hu, hr⟩
    unfold performFullAudit
    rcases hU : ds.getUser with e | u
    · rw [hU] at hu
      simp [Except.isOk, Except.toBool] at hu
    rcases hR : ds.listRepos with e | gs
    · rw [hR] at hr
      simp [Except.isOk, Except.toBool] at hr
    rw [show listRepositories ds = Except.ok (gs.map convertRepo) from
      by simp [listRepositories, hR]]
    simp [Except.isOk, Except.toBool]
  · intro e hU
    unfold performFullAudit
    rw [hU]
  · intro u e hU hR
    unfold performFullAudit
    rw [hU, show listRepositories ds = Except.error ("failed to list repositories: " ++ e) from
      by simp [listRepositories, hR]]
  · intro repo e r hmem hC hok
    obtain ⟨_, h2, _⟩ := performFullAudit_ok_fields ds cfg cutoff r hok
    rw [h2]
    exact foldl_commit_error_hit ds cfg _ initState repo e hmem hC

/-- C4 witness: a failing user fetch aborts with the wrapped stage
message. -/
theorem performFullAudit_fatal_vs_recorded_witness :
    performFullAudit dsUserErr cfgPipe 0
      = Except.error ("failed to get user info: " ++ "boom") :=
  (performFullAudit_fatal_vs_recorded dsUserErr cfgPipe 0).2.1 ("boom") (by rfl)

/-- C7 (confirmed): for every completed audit,
`OriginalRepos + ForkedRepos = TotalRepos`,
`AnalysisRepos ≤ TotalRepos`, and `AnalysisRepos` is the size of the
post-recency-filter, post-truncation candidate set (not the number of
repositories whose analysis succeeded). -/
theorem repoStatistics_invariants (ds : DataSource) (cfg : GitHubConfig)
    (cutoff : Int) (r : AuditResult)
    (h : performFullAudit ds cfg cutoff = Except.ok r) :
    r.repoStats.statistics.originalRepos + r.repoStats.statistics.forkedRepos
        = r.repoStats.statistics.totalRepos ∧
    r.repoStats.statistics.analysisRepos ≤ r.repoStats.statistics.totalRepos ∧
    r.repoStats.statistics.analysisRepos = (analysisReposOf ds cfg cutoff).length := by
  obtain ⟨_, _, _, _, _, h6, gs, hgs, ht, ho, hf, _⟩ :=
    performFullAudit_ok_fields ds cfg cutoff r h
  refine ⟨?_, ?_, h6⟩
  · rw [ht, ho, hf]
    exact length_filter_partition _ _
  · rw [h6, ht]
    have h1 : (analysisReposOf ds cfg cutoff).length
        ≤ (candidateReposOf ds cutoff).length := by
      unfold analysisReposOf selectAnalysisRepos
      split
      · rw [List.length_take]
        unfold sortByUpdatedDesc
        rw [List.length_insertionSort]
        exact min_le_right _ _
      · exact le_refl _
    have h2 : (candidateReposOf ds cutoff).length ≤ (gs.map convertRepo).length := by
      unfold candidateReposOf
      rw [show listRepositories ds = Except.ok (gs.map convertRepo) from
        by simp [listRepositories, hgs]]
      exact List.length_filter_le _ _
    omega

/-- C7 witness: the partition identity on the concrete run
(`4 + 1 = 5`). -/
theorem repoStatistics_invariants_witness :
    auditPipe.repoStats.statistics.originalRepos + auditPipe.repoStats.statistics.forkedRepos
      = auditPipe.repoStats.statistics.totalRepos :=
  (repoStatistics_invariants dsPipe cfgPipe 0 auditPipe (by rfl)).1

/-- C8 (confirmed): a candidate repository whose commit fetch succeeds
with at least one commit but whose file-tree fetch fails is recorded in
`ReposWithErrors`, is absent from `ReposAnalyzedForCode`, and the
commits already fetched for it remain in the `CommitDetails` aggregate
— the commit phase is not rolled back. -/
theorem treeFailure_records_error_keeps_commits (ds : DataSource) (cfg : GitHubConfig)
    (cutoff : Int) (repo : Repository) (cs : List CommitDetail) (e : String)
    (r : AuditResult)
    (h : performFullAudit ds cfg cutoff = Except.ok r)
    (hmem : repo ∈ analysisReposOf ds cfg cutoff)
    (hC : ds.getCommits repo.name cfg.commitsPerRepo = Except.ok cs)
    (hne : cs ≠ [])
    (hT : ds.getTree repo.name = Except.error e) :
    repo.name ∈ r.analysisSummary.reposWithErrors ∧
    repo.name ∉ r.analysisSummary.reposAnalyzedForCode ∧
    ∀ c ∈ cs, c ∈ r.commitDetails := by
  obtain ⟨h1, h2, _, h4, _⟩ := performFullAudit_ok_fields ds cfg cutoff r h
  obtain ⟨he, hcs⟩ := foldl_tree_error_hit ds cfg (analysisReposOf ds cfg cutoff)
    initState repo cs e hmem hC hne hT
  refine ⟨?_, ?_, ?_⟩
  · rw [h2]
    exact he
  · rw [h1]
    exact foldl_analyzed_preserve ds cfg repo.name e hT _ initState (by simp [initState])
  · intro c hc
    rw [h4]
    exact hcs c hc

/-- C8 witness: in the concrete run, `treebad` (commits ok, tree fetch
fails) lands in the error list. -/
theorem treeFailure_records_error_keeps_commits_witness :
    repoTreebad.name ∈ auditPipe.analysisSummary.reposWithErrors :=
  (treeFailure_records_error_keeps_commits dsPipe cfgPipe 0 repoTreebad
    [commitPipe ("treebad")] ("tree boom") auditPipe (by rfl) (by decide) (by rfl)
    (by decide) (by rfl)).1

/-- C9 (confirmed): `SignificantForks` is `0` for every successful
audit: each repository record is built by `ListRepositories` with
`UserCommits` left at its zero value, no later stage writes it, so
`repo.Fork && repo.UserCommits > 10` never holds. -/
theorem significantForks_always_zero (ds : DataSource) (cfg : GitHubConfig)
    (cutoff : Int) (r : AuditResult)
    (h : performFullAudit ds cfg cutoff = Except.ok r) :
    r.repoStats.statistics.significantForks = 0 := by
  obtain ⟨_, _, _, _, _, _, gs, _, _, _, _, hs⟩ :=
    performFullAudit_ok_fields ds cfg cutoff r h
  rw [hs]
  have hnone : ∀ x ∈ gs.map convertRepo, ¬(x.fork && decide (10 < x.userCommits)) = true := by
    intro x hx
    obtain ⟨g, _, rfl⟩ := List.mem_map.mp hx
    simp [convertRepo]
  rw [List.filter_eq_nil_iff.mpr hnone]
  rfl

/-- C9 witness: the concrete run contains a fork, and its
`SignificantForks` is still `0`. -/
theorem significantForks_always_zero_witness :
    auditPipe.repoStats.statistics.significantForks = 0 :=
  significantForks_always_zero dsPipe cfgPipe 0 auditPipe (by rfl)

/-- C10 (confirmed): when the blob fetch or base64 decode of one
sampled file fails, the file is silently dropped: the contents fetch
still succeeds (returning the `filterMap` of the sampled files, hence
strictly fewer entries than were sampled), the repository is recorded
in `ReposAnalyzedForCode`, it is absent from `ReposWithErrors`, and its
post-loop record carries `IncludeAnalysis = true`. -/
theorem fileFailure_silently_omitted (ds : DataSource) (cfg : GitHubConfig)
    (cutoff : Int) (repo : Repository) (cs : List CommitDetail)
    (entries : List TreeEntry) (f : TreeEntry) (r : AuditResult)
    (h : performFullAudit ds cfg cutoff = Except.ok r)
    (hmem : repo ∈ analysisReposOf ds cfg cutoff)
    (hC : ds.getCommits repo.name cfg.commitsPerRepo = Except.ok cs)
    (hne : cs ≠ [])
    (hT : ds.getTree repo.name = Except.ok entries)
    (hf : f ∈ sampleFiles cfg (codeEntries entries))
    (hfail : analyzeFile ds repo.name f = none) :
    getRepositoryContents ds cfg repo.name
        = Except.ok ((sampleFiles cfg (codeEntries entries)).filterMap (analyzeFile ds repo.name)) ∧
    ((sampleFiles cfg (codeEntries entries)).filterMap (analyzeFile ds repo.name)).length
        < (sampleFiles cfg (codeEntries entries)).length ∧
    repo.name ∈ r.analysisSummary.reposAnalyzedForCode ∧
    repo.name ∉ r.analysisSummary.reposWithErrors ∧
    ∃ rec, rec ∈ (processRepos ds cfg (analysisReposOf ds cfg cutoff)).updatedRepos ∧
      rec.name = repo.name ∧ rec.includeAnalysis = true := by
  obtain ⟨h1, h2, _⟩ := performFullAudit_ok_fields ds cfg cutoff r h
  obtain ⟨ha, rec, hru, hrn, hri⟩ := foldl_success_hit ds cfg (analysisReposOf ds cfg cutoff)
    initState repo cs entries hmem hC hne hT
  refine ⟨getRepositoryContents_tree_ok ds cfg repo.name entries hT, ?_, ?_, ?_, ?_⟩
  · exact length_filterMap_lt _ _ f hf hfail
  · rw [h1]
    exact ha
  · rw [h2]
    exact foldl_errors_preserve ds cfg repo.name (by rw [hC]; rfl) (by rw [hT]; rfl)
      _ initState (by simp [initState])
  · exact ⟨rec, hru, hrn, hri⟩

/-- C10 witness: in the concrete run, the `util.go` blob of `good`
fails to decode, yet `good` is still recorded as analyzed. -/
theorem fileFailure_silently_omitted_witness :
    repoGood.name ∈ auditPipe.analysisSummary.reposAnalyzedForCode :=
  (fileFailure_silently_omitted dsPipe cfgPipe 0 repoGood [commitPipe ("good")]
    treePipe ⟨"util.go", "blob"⟩ auditPipe (by rfl) (by decide) (by rfl) (by decide)
    (by rfl) (by decide) (by rfl)).2.2.1

end DevProfiler
